import Mathlib

/-!
Shallow embedding of the RepCRec replicated transaction manager
(src/repcrec.py and src/data_structures.py): a multi-version store over
10 sites and 20 variables with snapshot reads, buffered writes, an
available-copies abort rule, first-committer-wins, and SSI cycle
detection over an RW+WW conflict graph.

Python dictionaries are embedded as insertion-ordered association lists,
Python sets of small integers as ascending lists, and Python exceptions
(`raise ValueError` in `_ensure_txn`, `KeyError` on `self.vars[var]`)
as `Except Err`.  Trace output (`print`) is embedded as a list of
`Event` values returned alongside the successor state.
-/

namespace RepCRec

/-- Association-list lookup: first binding of the key wins
(Python dictionary read `d[k]` / `d.get(k)`). -/
def alookup {α β : Type} [DecidableEq α] : List (α × β) → α → Option β
  | [], _ => none
  | (k, v) :: rest, a => if a = k then some v else alookup rest a

/-- Association-list assignment `d[k] = v`: replaces the binding in place
if present, appends at the end otherwise (Python dict insertion order). -/
def aset {α β : Type} [DecidableEq α] : List (α × β) → α → β → List (α × β)
  | [], k, v => [(k, v)]
  | (k', v') :: rest, k, v => if k = k' then (k, v) :: rest else (k', v') :: aset rest k v

/-- Set-style insertion `s.add(a)`: appends if absent. -/
def sadd {α : Type} [DecidableEq α] (l : List α) (a : α) : List α :=
  if a ∈ l then l else l ++ [a]

/-- `data_structures.Transaction.status` values. -/
inductive TxStatus
  | active
  | committed
  | aborted
deriving Repr, DecidableEq

/-- `data_structures.Version`. -/
structure Version where
  value : Int
  commitTime : Nat
  writer : Option String
  sites : List Nat
deriving Repr, DecidableEq

/-- `data_structures.Site`. -/
structure Site where
  sid : Nat
  isUp : Bool
  data : List (Nat × Int)
  canRead : List (Nat × Bool)
  failureTimes : List Nat
  recoveryTimes : List Nat
deriving Repr, DecidableEq

/-- `data_structures.Transaction`. -/
structure Transaction where
  tid : String
  startTime : Nat
  status : TxStatus
  readVars : List Nat
  writeBuffer : List (Nat × Int)
  writeSites : List (Nat × List Nat)
  siteWriteTimes : List (Nat × Nat)
  commitTime : Option Nat
deriving Repr, DecidableEq

/-- The manager state (`repcrec.RepCRec` instance fields).  Variables
`x1..x20` are identified by their index `1..20`. -/
structure TM where
  time : Nat
  sites : List Site
  vars : List (Nat × List Version)
  txns : List (String × Transaction)
  varLastWriter : List (Nat × (String × Nat))
  readers : List (Nat × List String)
  blockedReads : List (String × (Nat × Int × List Nat))
deriving Repr, DecidableEq

/-- Python exceptions that can escape the manager. -/
inductive Err
  | txnNotBegun (tid : String)
  | keyError (x : Nat)
deriving Repr, DecidableEq

/-- Abort reasons printed by the manager. -/
inductive AbortReason
  | noCommittedVersion (x : Nat)
  | noSnapshotAtSite (x : Nat) (s : Nat)
  | noAvailableSnapshot (x : Nat)
  | noSiteUpForWrite (x : Nat)
  | siteFailedAfterWrite (s : Nat)
  | firstCommitterWins (x : Nat) (other : String)
  | cycleDetected
deriving Repr, DecidableEq

/-- Trace events (embedding of the `print` calls). -/
inductive Event
  | beganE (tid : String) (t : Nat)
  | readVal (x : Nat) (v : Int)
  | readFailed (x : Nat)
  | waits (tid : String) (x : Nat)
  | noSiteUp (tid : String) (x : Nat)
  | buffered (tid : String) (x : Nat) (v : Int)
  | endE (tid : String) (t : Nat)
  | commits (tid : String)
  | aborts (tid : String) (r : Option AbortReason)
  | siteFails (s : Nat)
  | siteRecovers (s : Nat)
  | dumped (s : Nat) (data : List (Nat × Int))
deriving Repr, DecidableEq

/-- `RepCRec.is_replicated`: even-indexed variables are replicated. -/
def isReplicated (idx : Nat) : Bool := idx % 2 == 0

/-- `RepCRec.home_site_for_odd`: `1 + (index mod 10)`. -/
def homeSite (idx : Nat) : Nat := 1 + idx % 10

/-- Site ids `1..10`. -/
def allSiteIds : List Nat := (List.range 10).map (· + 1)

/-- Variable indices `1..20`. -/
def allVarIds : List Nat := (List.range 20).map (· + 1)

/-- Does site `s` hold variable `i` initially (even, or `s` is its home)? -/
def initHolds (s i : Nat) : Bool := isReplicated i || homeSite i == s

/-- An initial site from `_init_sites_and_vars`: up, holding its variables
with value `10*i`, read gates open. -/
def initSite (s : Nat) : Site :=
  let held := allVarIds.filter (initHolds s)
  { sid := s
    isUp := true
    data := held.map (fun i => (i, (10 * i : Int)))
    canRead := held.map (fun i => (i, true))
    failureTimes := []
    recoveryTimes := [] }

/-- The initial `Version` of variable `i`: value `10*i`, committed at
time 0 by the null writer, held by every site that stores `i`. -/
def initVersion (i : Nat) : Version :=
  { value := 10 * i
    commitTime := 0
    writer := none
    sites := if isReplicated i then allSiteIds else [homeSite i] }

/-- The freshly constructed manager (`RepCRec.__init__`). -/
def initTM : TM :=
  { time := 0
    sites := allSiteIds.map initSite
    vars := allVarIds.map (fun i => (i, [initVersion i]))
    txns := []
    varLastWriter := []
    readers := []
    blockedReads := [] }

/-- Lookup of a site by id; the junk default never arises on the ids the
manager passes (all within `1..10`). -/
def siteOf (tm : TM) (s : Nat) : Site :=
  match tm.sites.find? (fun st => st.sid == s) with
  | some st => st
  | none => ⟨0, false, [], [], [], []⟩

def siteExists (tm : TM) (s : Nat) : Bool := tm.sites.any (fun st => st.sid == s)

def updateSite (tm : TM) (s : Nat) (f : Site → Site) : TM :=
  { tm with sites := tm.sites.map (fun st => if st.sid = s then f st else st) }

/-- One step of the loop body of `VariableHistory.latest_before`. -/
def keepLater (ts : Nat) (best : Option Version) (v : Version) : Option Version :=
  if v.commitTime ≤ ts then
    match best with
    | none => some v
    | some b => if b.commitTime < v.commitTime then some v else best
  else best

def latestBeforeAux (ts : Nat) : List Version → Option Version → Option Version
  | [], best => best
  | v :: rest, best => latestBeforeAux ts rest (keepLater ts best v)

/-- `VariableHistory.latest_before`: the latest version committed at or
before `ts`. -/
def latestBefore (versions : List Version) (ts : Nat) : Option Version :=
  latestBeforeAux ts versions none

/-- `RepCRec.site_up_continuously`: no failure in `(start, fin]`. -/
def siteUpContinuously (s : Site) (start fin : Nat) : Bool :=
  s.failureTimes.all (fun f => !(decide (start < f ∧ f ≤ fin)))

/-- `RepCRec._ensure_txn`: raises when the transaction was never begun. -/
def ensureTxn (tm : TM) (tid : String) : Except Err Transaction :=
  match alookup tm.txns tid with
  | some t => .ok t
  | none => .error (.txnNotBegun tid)

/-- A fresh `Transaction` record as built by `begin`. -/
def freshTxn (tid : String) (t : Nat) : Transaction :=
  { tid := tid, startTime := t, status := .active, readVars := []
    writeBuffer := [], writeSites := [], siteWriteTimes := [], commitTime := none }

/-- `RepCRec.begin`: ignore if the id is currently active, otherwise
(including committed or aborted ids) install a fresh active record. -/
def beginOp (tm : TM) (tid : String) : TM × List Event :=
  match alookup tm.txns tid with
  | some t =>
    if t.status = .active then (tm, [])
    else ({ tm with txns := aset tm.txns tid (freshTxn tid tm.time) }, [.beganE tid tm.time])
  | none => ({ tm with txns := aset tm.txns tid (freshTxn tid tm.time) }, [.beganE tid tm.time])

/-- Register a successful read: add to the reader's `read_vars` and to
`readers[x]`. -/
def registerRead (tm : TM) (tid : String) (t : Transaction) (x : Nat) : TM :=
  { tm with
    txns := aset tm.txns tid { t with readVars := sadd t.readVars x }
    readers := aset tm.readers x (sadd ((alookup tm.readers x).getD []) tid) }

def setStatus (tm : TM) (tid : String) (t : Transaction) (st : TxStatus) : TM :=
  { tm with txns := aset tm.txns tid { t with status := st } }

/-- `RepCRec.read`. -/
def readOp (tm : TM) (tid : String) (x : Nat) : Except Err (TM × List Event) :=
  match ensureTxn tm tid with
  | .error e => .error e
  | .ok t =>
  if t.status ≠ .active then .ok (tm, [])
  else if (alookup tm.blockedReads tid).isSome then .ok (tm, [])
  else
    match alookup t.writeBuffer x with
    | some val => .ok (registerRead tm tid t x, [.readVal x val])
    | none =>
      match alookup tm.vars x with
      | none => .error (.keyError x)
      | some versions =>
        match latestBefore versions t.startTime with
        | none =>
          .ok (setStatus tm tid t .aborted,
               [.readFailed x, .aborts tid (some (.noCommittedVersion x))])
        | some snap =>
          if isReplicated x = false then
            let home := homeSite x
            if (siteOf tm home).isUp = false then
              .ok ({ tm with blockedReads := aset tm.blockedReads tid (x, snap.value, [home]) },
                   [.waits tid x])
            else if home ∉ snap.sites then
              .ok (setStatus tm tid t .aborted,
                   [.readFailed x, .aborts tid (some (.noSnapshotAtSite x home))])
            else .ok (registerRead tm tid t x, [.readVal x snap.value])
          else
            let eligible := snap.sites.filter
              (fun s => siteUpContinuously (siteOf tm s) snap.commitTime t.startTime)
            let upReadable := eligible.filter
              (fun s => (siteOf tm s).isUp && ((alookup (siteOf tm s).canRead x).getD true))
            if eligible = [] then
              .ok (setStatus tm tid t .aborted,
                   [.readFailed x, .aborts tid (some (.noAvailableSnapshot x))])
            else if upReadable ≠ [] then
              .ok (registerRead tm tid t x, [.readVal x snap.value])
            else
              .ok ({ tm with blockedReads := aset tm.blockedReads tid (x, snap.value, eligible) },
                   [.waits tid x])

/-- `RepCRec.write`. -/
def writeOp (tm : TM) (tid : String) (x : Nat) (v : Int) : Except Err (TM × List Event) :=
  match ensureTxn tm tid with
  | .error e => .error e
  | .ok t =>
  if t.status ≠ .active then .ok (tm, [])
  else
    let targets :=
      if isReplicated x then (tm.sites.filter (·.isUp)).map (·.sid)
      else if (siteOf tm (homeSite x)).isUp then [homeSite x] else []
    if targets = [] then
      .ok (setStatus tm tid t .aborted,
           [.noSiteUp tid x, .aborts tid (some (.noSiteUpForWrite x))])
    else
      let t' := { t with
        writeBuffer := aset t.writeBuffer x v
        writeSites := aset t.writeSites x (targets.foldl sadd ((alookup t.writeSites x).getD []))
        siteWriteTimes := targets.foldl
          (fun m s => if (alookup m s).isSome then m else aset m s tm.time) t.siteWriteTimes }
      .ok ({ tm with txns := aset tm.txns tid t' }, [.buffered tid x v])

/-- Node set of `_build_conflict_graph`: non-aborted transactions that
are committed or are the candidate. -/
def nodesOf (tm : TM) (cand : String) : List String :=
  tm.txns.filterMap (fun p =>
    if p.2.status = .aborted then none
    else if p.2.status = .committed ∨ p.1 = cand then some p.1 else none)

/-- Transaction record lookup used inside the graph construction; the
default never arises because readers and writers are filtered to the
node set, which only contains keys of `txns`. -/
def txnOf (tm : TM) (tid : String) : Transaction :=
  (alookup tm.txns tid).getD (freshTxn tid 0)

/-- The helper `interval` of `_build_conflict_graph`: `[start_time,
commit_time]` for a committed transaction, `[start_time, now]`
otherwise. -/
def interval (tm : TM) (tid : String) : Nat × Nat :=
  let t := txnOf tm tid
  (t.startTime, t.commitTime.getD tm.time)

/-- The overlap test of the RW-edge loop: `r_start < w_end and w_start < r_end`. -/
def strictOverlap (a b : Nat × Nat) : Bool :=
  decide (a.1 < b.2) && decide (b.1 < a.2)

/-- `var in self.txns[tid].write_buffer`. -/
def writesVar (tm : TM) (w : String) (x : Nat) : Bool :=
  (alookup (txnOf tm w).writeBuffer x).isSome

/-- RW edges (reader → writer) of `_build_conflict_graph`. -/
def rwEdges (tm : TM) (nodes : List String) : List (String × String) :=
  tm.readers.flatMap (fun p =>
    let writers := nodes.filter (fun w => writesVar tm w p.1)
    (p.2.filter (fun r => decide (r ∈ nodes))).flatMap (fun r =>
      writers.filterMap (fun w =>
        if w = r then none
        else if strictOverlap (interval tm r) (interval tm w) then some (r, w) else none)))

/-- The `writers_info` dictionary: writers found in a version history
with their (latest) commit times, keyed in order of first appearance. -/
def writersInfoOf (versions : List Version) : List (String × Nat) :=
  versions.foldl (fun acc v => match v.writer with | some w => aset acc w v.commitTime | none => acc) []

/-- All ordered pairs (earlier, later) of a sorted writer list. -/
def wwPairs : List (String × Nat) → List (String × String)
  | [] => []
  | (t, _) :: rest => rest.map (fun q => (t, q.1)) ++ wwPairs rest

/-- WW edges (earlier writer → later writer) of `_build_conflict_graph`.
Python's `list.sort` is a stable sort by commit time; the stable
`List.insertionSort` produces the identical ordering. -/
def wwEdges (tm : TM) (cand : String) (nodes : List String) : List (String × String) :=
  tm.vars.flatMap (fun p =>
    let wi0 := writersInfoOf p.2
    let wi1 := if (alookup tm.txns cand).isSome && writesVar tm cand p.1
               then aset wi0 cand tm.time else wi0
    let ws := (wi1.filter (fun q => decide (q.1 ∈ nodes))).insertionSort
      (fun a b => a.2 ≤ b.2)
    wwPairs ws)

/-- `RepCRec._build_conflict_graph`: adjacency lists over the node set. -/
def buildConflictGraph (tm : TM) (cand : String) : List (String × List String) :=
  let nodes := nodesOf tm cand
  let edges := rwEdges tm nodes ++ wwEdges tm cand nodes
  nodes.map (fun u => (u, edges.foldl (fun acc e => if e.1 = u then sadd acc e.2 else acc) []))

/-- Adjacency of a graph node, `graph.get(u, ())`. -/
def succs (g : List (String × List String)) (u : String) : List String :=
  (alookup g u).getD []

/-- Every string occurring in the graph (keys and successors); used only
to size the DFS fuel. -/
def allNodes (g : List (String × List String)) : List String :=
  g.flatMap (fun p => p.1 :: p.2)

/-- The edge-scanning loop of the recursive `dfs` in
`_has_cycle_involving`: scans the successor list `vs` of the node on
top of `stack`, handing each unvisited successor to `visit` (the
recursive `dfs` call); `visited` persists across calls. -/
def scanList (tid : String)
    (visit : String → List String → List String → Bool × List String) :
    List String → List String → List String → Bool × List String
  | [], visited, _ => (false, visited)
  | v :: rest, visited, stack =>
    if v ∈ visited then
      if v ∈ stack ∧ tid ∈ stack then (true, visited)
      else scanList tid visit rest visited stack
    else
      match visit v visited stack with
      | (true, vis) => (true, vis)
      | (false, vis) => scanList tid visit rest vis stack

/-- The recursive `dfs` of `_has_cycle_involving`: mark `v` visited,
push it on the stack, scan its successors; the stack entry is dropped
on normal exit (the stack is passed by value).  The fuel only bounds
the nesting depth and is never exhausted when it starts above the
number of nodes of the graph. -/
def dfsVisit (g : List (String × List String)) (tid : String) :
    Nat → String → List String → List String → Bool × List String
  | 0, _, visited, _ => (false, visited)
  | fuel + 1, v, visited, stack =>
    scanList tid (dfsVisit g tid fuel) (succs g v) (v :: visited) (v :: stack)

/-- `RepCRec._has_cycle_involving`: DFS from `tid`, reporting `true`
upon any back edge found while `tid` is on the stack. -/
def hasCycleInvolving (g : List (String × List String)) (tid : String) : Bool :=
  if (alookup g tid).isSome then
    (dfsVisit g tid ((allNodes g).length + 2) tid [] []).1
  else false

/-- `RepCRec._should_abort_due_to_cycle`. -/
def shouldAbortDueToCycle (tm : TM) (tid : String) : Bool :=
  hasCycleInvolving (buildConflictGraph tm tid) tid

/-- Gate A of `end`: the first write site with a failure strictly after
the first write and at or before now. -/
def gateAFail (tm : TM) : List (Nat × Nat) → Option Nat
  | [] => none
  | (s, w) :: rest =>
    if (siteOf tm s).failureTimes.any (fun f => decide (w < f ∧ f ≤ tm.time))
    then some s else gateAFail tm rest

/-- Gate B of `end`: the first buffered variable whose last committed
writer is another transaction that committed after this one started. -/
def gateBFail (tm : TM) (tid : String) (start : Nat) : List (Nat × Int) → Option (Nat × String)
  | [] => none
  | (x, _) :: rest =>
    match alookup tm.varLastWriter x with
    | some q => if q.1 ≠ tid ∧ q.2 > start then some (x, q.1) else gateBFail tm tid start rest
    | none => gateBFail tm tid start rest

/-- Applying one buffered write at commit: store the value at every
targeted site that is currently up (re-opening the read gate of a
replicated variable there), append a `Version`, update `last_writer`.
Raises `KeyError` when the variable is not in the store. -/
def applyOneWrite (tid : String) (now : Nat) (wsites : List Nat) (tm : TM) (x : Nat) (val : Int) :
    Except Err TM :=
  let committedSites := wsites.filter (fun s => (siteOf tm s).isUp)
  let tm1 := { tm with sites := tm.sites.map (fun (st : Site) =>
      if st.sid ∈ committedSites then
        { st with
          data := aset st.data x val
          canRead := if isReplicated x then aset st.canRead x true else st.canRead }
      else st) }
  match alookup tm1.vars x with
  | none => .error (.keyError x)
  | some versions =>
    .ok { tm1 with
      vars := aset tm1.vars x (versions ++ [(⟨val, now, some tid, committedSites⟩ : Version)])
      varLastWriter := aset tm1.varLastWriter x (tid, now) }

def applyWritesList (tid : String) (now : Nat) (t : Transaction) :
    TM → List (Nat × Int) → Except Err TM
  | tm, [] => .ok tm
  | tm, (x, val) :: rest =>
    match applyOneWrite tid now ((alookup t.writeSites x).getD []) tm x val with
    | .error e => .error e
    | .ok tm' => applyWritesList tid now t tm' rest

/-- `RepCRec.end`: the three gates followed by commit application. -/
def endOp (tm : TM) (tid : String) : Except Err (TM × List Event) :=
  match ensureTxn tm tid with
  | .error e => .error e
  | .ok t =>
  let ev := Event.endE tid tm.time
  if t.status = .aborted then .ok (tm, [ev, .aborts tid none])
  else
    match gateAFail tm t.siteWriteTimes with
    | some s => .ok (setStatus tm tid t .aborted, [ev, .aborts tid (some (.siteFailedAfterWrite s))])
    | none =>
      match gateBFail tm tid t.startTime t.writeBuffer with
      | some (x, other) =>
        .ok (setStatus tm tid t .aborted, [ev, .aborts tid (some (.firstCommitterWins x other))])
      | none =>
        if shouldAbortDueToCycle tm tid then
          .ok (setStatus tm tid t .aborted, [ev, .aborts tid (some .cycleDetected)])
        else
          let t1 := { t with commitTime := some tm.time }
          let tm1 := { tm with txns := aset tm.txns tid t1 }
          match applyWritesList tid tm.time t tm1 t.writeBuffer with
          | .error e => .error e
          | .ok tm2 =>
            .ok ({ tm2 with txns := aset tm2.txns tid { t1 with status := .committed } },
                 [ev, .commits tid])

/-- `RepCRec.fail`: mark the site down, record the failure time. -/
def failOp (tm : TM) (s : Nat) : TM × List Event :=
  if siteExists tm s then
    if (siteOf tm s).isUp then
      (updateSite tm s (fun st => { st with isUp := false, failureTimes := st.failureTimes ++ [tm.time] }),
       [.siteFails s])
    else (tm, [])
  else (tm, [])

def siteUpIn (sites : List Site) (s : Nat) : Bool :=
  match sites.find? (fun st => st.sid == s) with
  | some st => st.isUp
  | none => false

/-- The loop of `_try_unblock_reads`, over the blocked-read entries in
insertion order, threading the transaction table and the reader index.
Returns the surviving entries, the updated tables and the emitted
events. -/
def unblockGo (sites : List Site) :
    List (String × (Nat × Int × List Nat)) → List (String × Transaction) →
    List (Nat × List String) →
    List (String × (Nat × Int × List Nat)) × List (String × Transaction) ×
      List (Nat × List String) × List Event
  | [], txns, readerIdx => ([], txns, readerIdx, [])
  | (tid, (x, v, elig)) :: rest, txns, readerIdx =>
    match alookup txns tid with
    | none => unblockGo sites rest txns readerIdx
    | some t =>
      if t.status ≠ .active then unblockGo sites rest txns readerIdx
      else if elig.any (siteUpIn sites) then
        let txns' := aset txns tid { t with readVars := sadd t.readVars x }
        let readers' := aset readerIdx x (sadd ((alookup readerIdx x).getD []) tid)
        let (bl, tx2, rd2, evs) := unblockGo sites rest txns' readers'
        (bl, tx2, rd2, .readVal x v :: evs)
      else
        let (bl, tx2, rd2, evs) := unblockGo sites rest txns readerIdx
        ((tid, (x, v, elig)) :: bl, tx2, rd2, evs)

/-- `RepCRec._try_unblock_reads`. -/
def tryUnblockReads (tm : TM) : TM × List Event :=
  let r := unblockGo tm.sites tm.blockedReads tm.txns tm.readers
  ({ tm with blockedReads := r.1, txns := r.2.1, readers := r.2.2.1 }, r.2.2.2)

/-- Recompute a recovered site's read gates for every variable:
non-replicated variables are immediately readable; replicated variables
only if the site holds the latest committed version. -/
def recomputeCanRead (tm : TM) (s : Nat) : TM :=
  updateSite tm s (fun st =>
    { st with canRead := tm.vars.foldl (fun cr p =>
        if isReplicated p.1 then
          match p.2.getLast? with
          | some latest => aset cr p.1 (decide (s ∈ latest.sites))
          | none => cr
        else aset cr p.1 true) st.canRead })

/-- `RepCRec.recover`: mark the site up (if down), recompute its read
gates, then run the unblocker — the last two steps run even when the
site was already up. -/
def recoverOp (tm : TM) (s : Nat) : TM × List Event :=
  if siteExists tm s then
    let p :=
      if (siteOf tm s).isUp then (tm, ([] : List Event))
      else (updateSite tm s
              (fun st => { st with isUp := true, recoveryTimes := st.recoveryTimes ++ [tm.time] }),
            [.siteRecovers s])
    let tm2 := recomputeCanRead p.1 s
    let q := tryUnblockReads tm2
    (q.1, p.2 ++ q.2)
  else (tm, [])

/-- `RepCRec.dump`: emit each site's committed values (stored in
ascending variable order). -/
def dumpOp (tm : TM) : TM × List Event :=
  (tm, tm.sites.map (fun st => .dumped st.sid st.data))

/-- The seven script commands. -/
inductive Cmd
  | beginT (tid : String)
  | readT (tid : String) (x : Nat)
  | writeT (tid : String) (x : Nat) (v : Int)
  | endT (tid : String)
  | failS (s : Nat)
  | recoverS (s : Nat)
  | dumpS
deriving Repr, DecidableEq

/-- `RepCRec.execute_line` on a recognized command: advance time by one,
then dispatch. -/
def step (tm0 : TM) (c : Cmd) : Except Err (TM × List Event) :=
  let tm := { tm0 with time := tm0.time + 1 }
  match c with
  | .beginT tid => .ok (beginOp tm tid)
  | .readT tid x => readOp tm tid x
  | .writeT tid x v => writeOp tm tid x v
  | .endT tid => endOp tm tid
  | .failS s => .ok (failOp tm s)
  | .recoverS s => .ok (recoverOp tm s)
  | .dumpS => .ok (dumpOp tm)

def runFrom (tm : TM) : List Cmd → Except Err (TM × List Event)
  | [] => .ok (tm, [])
  | c :: rest => do
    let p ← step tm c
    let q ← runFrom p.1 rest
    .ok (q.1, p.2 ++ q.2)

/-- Run a whole script against a fresh manager. -/
def run (cmds : List Cmd) : Except Err (TM × List Event) := runFrom initTM cmds

/-! ### Derived notions and concrete inputs used to settle the claims -/

/-- The state of a successful run (the default is never used on the
concrete scripts below, all of which run without raising). -/
def okSt (r : Except Err (TM × List Event)) : TM :=
  match r with
  | .ok p => p.1
  | .error _ => initTM

/-- The trace of a successful run. -/
def okEvs (r : Except Err (TM × List Event)) : List Event :=
  match r with
  | .ok p => p.2
  | .error _ => []

/-- Edge relation of a conflict graph given as adjacency lists. -/
def GEdge (g : List (String × List String)) (a b : String) : Prop := b ∈ succs g a

instance (g : List (String × List String)) (a b : String) : Decidable (GEdge g a b) := by
  unfold GEdge
  infer_instance

/-- `tid` lies on a directed cycle of `g`. -/
def OnCycle (g : List (String × List String)) (tid : String) : Prop :=
  Relation.TransGen (GEdge g) tid tid

/-- Some directed cycle of `g` is reachable from `tid`. -/
def ReachableCycle (g : List (String × List String)) (tid : String) : Prop :=
  ∃ u, Relation.ReflTransGen (GEdge g) tid u ∧ Relation.TransGen (GEdge g) u u

/-- Modelled from the spec: the closed-interval overlap test that the
specification prescribes for RW edges, `r_start ≤ w_end ∧ w_start ≤ r_end`
(the code uses the strict test `strictOverlap` instead). -/
def closedOverlap (a b : Nat × Nat) : Bool :=
  decide (a.1 ≤ b.2) && decide (b.1 ≤ a.2)

/-- Script for claim C1: `T1` and `T2` commit with disjoint intervals, a
second `end(T1)` re-commits `T1` with a later commit time so that the
committed pair now forms an RW cycle, and `T3` (a pure reader of `x4`)
then ends while merely *reaching* that cycle. -/
def c1Script : List Cmd :=
  [.beginT "T1", .readT "T1" 2, .writeT "T1" 4 44, .endT "T1",
   .beginT "T2", .readT "T2" 4, .writeT "T2" 2 22, .endT "T2",
   .beginT "T3", .readT "T3" 4, .endT "T1", .endT "T3"]

/-- The manager state at the final `end(T3)` of `c1Script` (time already
advanced by the dispatch loop). -/
def c1TM : TM :=
  let s := okSt (run (c1Script.take 11))
  { s with time := s.time + 1 }

/-- The conflict graph built by that final `end(T3)`. -/
def c1Graph : List (String × List String) := buildConflictGraph c1TM "T3"

/-- Script for claim C2: a second `end(T1)` after `T1` has committed,
with a failure of a write site in between. -/
def c2Script : List Cmd :=
  [.beginT "T1", .writeT "T1" 2 5, .endT "T1", .failS 1, .endT "T1"]

/-- Variant without the failure: the second `end` re-commits. -/
def c2ScriptB : List Cmd :=
  [.beginT "T1", .writeT "T1" 2 5, .endT "T1", .endT "T1"]

/-- State used for the C3 amended witness: one begun transaction. -/
def c3tm : TM := okSt (run [.beginT "T1"])

/-- Script for claim C4: the read of `x1` blocks (home site 2 down), and
then a write on the waiting transaction is processed anyway. -/
def c4Script : List Cmd :=
  [.failS 2, .beginT "T1", .readT "T1" 1, .writeT "T1" 2 5]

/-- State with a blocked read, used for the C4 amended witness. -/
def c4tm : TM := okSt (run (c4Script.take 3))

/-- State for the C5 counterexample: committed reader `Tr` of `x1` with
interval `[0,3]` and committed writer `Tw` of `x1` with interval
`[3,5]` — the closed intervals touch at time 3 but do not strictly
overlap. -/
def tmC5 : TM :=
  { time := 9
    sites := initTM.sites
    vars := initTM.vars
    txns := [("Tr", { tid := "Tr", startTime := 0, status := .committed, readVars := [1],
                      writeBuffer := [], writeSites := [], siteWriteTimes := [],
                      commitTime := some 3 }),
             ("Tw", { tid := "Tw", startTime := 3, status := .committed, readVars := [],
                      writeBuffer := [(1, 7)], writeSites := [], siteWriteTimes := [],
                      commitTime := some 5 })]
    varLastWriter := []
    readers := [(1, ["Tr"])]
    blockedReads := [] }

/-- State used for the C6 witness: a fresh transaction reading `x2`. -/
def c6tm : TM := { okSt (run [.beginT "T1"]) with time := 2 }

def c6res : TM × List Event :=
  match readOp c6tm "T1" 2 with
  | .ok p => p
  | .error _ => (c6tm, [])

/-- State used for the C7 witness: `T1` wrote `x2` everywhere and site 1
failed before the `end`. -/
def c7tm : TM :=
  let s := okSt (run [.beginT "T1", .writeT "T1" 2 5, .failS 1])
  { s with time := s.time + 1 }

/-- State used for the C8 witness: scenario E1 up to `end(T2)`. -/
def c8tm : TM :=
  let s := okSt (run [.beginT "T1", .beginT "T2", .writeT "T1" 1 101,
                      .writeT "T2" 1 102, .endT "T1"])
  { s with time := s.time + 1 }

/-- Script for claim C9: reader `Tr` blocks on `x2` with eligible sites
`2..10`; site 2 is up the whole time but read-gated; `recover(1)` — a
site outside the eligible set — then resolves the read. -/
def c9Script : List Cmd :=
  [.failS 1, .beginT "Ta", .writeT "Ta" 2 30, .endT "Ta",
   .beginT "Tr", .failS 2, .beginT "Tb", .writeT "Tb" 2 40, .endT "Tb",
   .recoverS 2,
   .failS 3, .failS 4, .failS 5, .failS 6, .failS 7, .failS 8, .failS 9, .failS 10,
   .readT "Tr" 2, .recoverS 1]

/-- The state just after the blocked read of `c9Script` (before the
final `recover(1)`). -/
def c9tm : TM := okSt (run (c9Script.take 19))

/-- State used for the C10 witness: a committed transaction record. -/
def c10tm : TM :=
  { initTM with
    time := 7
    txns := [("T1", { freshTxn "T1" 2 with status := .committed, commitTime := some 5 })] }

/-! ### Theorems -/

/-! #### Shared lemmas about the commit gates -/

theorem ensureTxn_ok {tm : TM} {tid : String} {t : Transaction}
    (h : alookup tm.txns tid = some t) : ensureTxn tm tid = .ok t := by
  unfold ensureTxn
  rw [h]

theorem gateAFail_isSome_iff (tm : TM) (l : List (Nat × Nat)) :
    (gateAFail tm l).isSome = true ↔
      ∃ s w, (s, w) ∈ l ∧ ∃ f ∈ (siteOf tm s).failureTimes, w < f ∧ f ≤ tm.time := by
  induction l with
  | nil => simp [gateAFail]
  | cons p rest ih =>
    obtain ⟨s, w⟩ := p
    rw [gateAFail]
    split_ifs with hcond
    · simp only [Option.isSome_some, true_iff]
      rw [List.any_eq_true] at hcond
      obtain ⟨f, hf, hwf⟩ := hcond
      rw [decide_eq_true_eq] at hwf
      exact ⟨s, w, List.mem_cons_self .., f, hf, hwf⟩
    · rw [ih]
      constructor
      · rintro ⟨s', w', hmem, hf⟩
        exact ⟨s', w', List.mem_cons_of_mem _ hmem, hf⟩
      · rintro ⟨s', w', hmem, f, hf, hc⟩
        rcases List.mem_cons.mp hmem with heq | hmem'
        · exfalso
          apply hcond
          rw [List.any_eq_true]
          obtain ⟨hs', hw'⟩ := Prod.mk.injEq .. ▸ heq
          exact ⟨f, hs' ▸ hf, by rw [decide_eq_true_eq]; exact hw' ▸ hc⟩
        · exact ⟨s', w', hmem', f, hf, hc⟩

theorem gateBFail_isSome_iff (tm : TM) (tid : String) (start : Nat) (l : List (Nat × Int)) :
    (gateBFail tm tid start l).isSome = true ↔
      ∃ x v tid' ct, (x, v) ∈ l ∧ alookup tm.varLastWriter x = some (tid', ct) ∧
        tid' ≠ tid ∧ start < ct := by
  induction l with
  | nil => simp [gateBFail]
  | cons p rest ih =>
    obtain ⟨x, v⟩ := p
    cases hlw : alookup tm.varLastWriter x with
    | some q =>
      obtain ⟨tid', ct⟩ := q
      rw [show gateBFail tm tid start ((x, v) :: rest) =
            if tid' ≠ tid ∧ ct > start then some (x, tid') else gateBFail tm tid start rest by
          rw [gateBFail, hlw]]
      split_ifs with hcond
      · simp only [Option.isSome_some, true_iff]
        exact ⟨x, v, tid', ct, List.mem_cons_self .., hlw, hcond.1, hcond.2⟩
      · rw [ih]
        constructor
        · rintro ⟨x', v', tid2, ct2, hmem, hrest⟩
          exact ⟨x', v', tid2, ct2, List.mem_cons_of_mem _ hmem, hrest⟩
        · rintro ⟨x', v', tid2, ct2, hmem, hlw', hne, hlt⟩
          rcases List.mem_cons.mp hmem with heq | hmem'
          · exfalso
            obtain ⟨hx, hv⟩ := Prod.mk.injEq .. ▸ heq
            rw [hx, hlw] at hlw'
            obtain ⟨h1, h2⟩ := Prod.mk.injEq .. ▸ Option.some.inj hlw'
            exact hcond ⟨h1 ▸ hne, h2 ▸ hlt⟩
          · exact ⟨x', v', tid2, ct2, hmem', hlw', hne, hlt⟩
    | none =>
      rw [show gateBFail tm tid start ((x, v) :: rest) = gateBFail tm tid start rest by
        rw [gateBFail, hlw]]
      rw [ih]
      constructor
      · rintro ⟨x', v', tid2, ct2, hmem, hrest⟩
        exact ⟨x', v', tid2, ct2, List.mem_cons_of_mem _ hmem, hrest⟩
      · rintro ⟨x', v', tid2, ct2, hmem, hlw', hne, hlt⟩
        rcases List.mem_cons.mp hmem with heq | hmem'
        · exfalso
          obtain ⟨hx, hv⟩ := Prod.mk.injEq .. ▸ heq
          rw [hx, hlw] at hlw'
          cases hlw'
        · exact ⟨x', v', tid2, ct2, hmem', hlw', hne, hlt⟩

theorem endOp_gateA {tm : TM} {tid : String} {t : Transaction} {s : Nat}
    (h : alookup tm.txns tid = some t) (hs : t.status ≠ .aborted)
    (hA : gateAFail tm t.siteWriteTimes = some s) :
    endOp tm tid = .ok (setStatus tm tid t .aborted,
      [.endE tid tm.time, .aborts tid (some (.siteFailedAfterWrite s))]) := by
  unfold endOp
  rw [ensureTxn_ok h]
  simp [hs, hA]

theorem endOp_gateB {tm : TM} {tid : String} {t : Transaction} {x : Nat} {o : String}
    (h : alookup tm.txns tid = some t) (hs : t.status ≠ .aborted)
    (hA : gateAFail tm t.siteWriteTimes = none)
    (hB : gateBFail tm tid t.startTime t.writeBuffer = some (x, o)) :
    endOp tm tid = .ok (setStatus tm tid t .aborted,
      [.endE tid tm.time, .aborts tid (some (.firstCommitterWins x o))]) := by
  unfold endOp
  rw [ensureTxn_ok h]
  simp [hs, hA, hB]

theorem endOp_gateC {tm : TM} {tid : String} {t : Transaction}
    (h : alookup tm.txns tid = some t) (hs : t.status ≠ .aborted)
    (hA : gateAFail tm t.siteWriteTimes = none)
    (hB : gateBFail tm tid t.startTime t.writeBuffer = none)
    (hC : shouldAbortDueToCycle tm tid = true) :
    endOp tm tid = .ok (setStatus tm tid t .aborted,
      [.endE tid tm.time, .aborts tid (some .cycleDetected)]) := by
  unfold endOp
  rw [ensureTxn_ok h]
  simp [hs, hA, hB, hC]

theorem endOp_commit_shape {tm : TM} {tid : String} {t : Transaction}
    (h : alookup tm.txns tid = some t) (hs : t.status ≠ .aborted)
    (hA : gateAFail tm t.siteWriteTimes = none)
    (hB : gateBFail tm tid t.startTime t.writeBuffer = none)
    (hC : shouldAbortDueToCycle tm tid = false) :
    (∃ e, endOp tm tid = .error e) ∨
    (∃ tm2, endOp tm tid = .ok (tm2, [.endE tid tm.time, .commits tid])) := by
  unfold endOp
  rw [ensureTxn_ok h]
  simp only [hs, hA, hB, hC, if_neg, Bool.false_eq_true, if_false]
  cases hW : applyWritesList tid tm.time t
      { tm with txns := aset tm.txns tid { t with commitTime := some tm.time } } t.writeBuffer with
  | error e => left; exact ⟨e, by simp [hs, hW]⟩
  | ok tm2 =>
    right
    refine ⟨{ tm2 with txns := aset tm2.txns tid ({ t with commitTime := some tm.time, status := .committed }) }, ?_⟩
    simp [hs, hW]

/-- C2: the claim states that a transaction's status never leaves
`committed` and that a second `end` after a commit changes nothing.
The code violates this: on `c2Script` the second `end(T1)` re-runs
Gate A and moves `T1` from `committed` to `aborted`, and on
`c2ScriptB` the second `end(T1)` overwrites `commit_time` (3 becomes 4)
and appends a duplicate `Version` (history length 3 instead of 2). -/
theorem c2_second_end_mutates_committed :
    (alookup (okSt (run (c2Script.take 3))).txns "T1").map Transaction.status =
      some .committed ∧
    (alookup (okSt (run c2Script)).txns "T1").map Transaction.status = some .aborted ∧
    (alookup (okSt (run (c2ScriptB.take 3))).txns "T1").map Transaction.commitTime =
      some (some 3) ∧
    (alookup (okSt (run c2ScriptB)).txns "T1").map Transaction.commitTime = some (some 4) ∧
    (alookup (okSt (run c2ScriptB)).vars 2).map List.length = some 3 := by
  decide

/-- C3 (counterexample): processing the single line `R(T1, x1)` on a
fresh manager raises `ValueError` (`Transaction T1 not begun`) to the
caller instead of reporting to the trace and continuing. -/
theorem c3_counterexample :
    step initTM (.readT "T1" 1) = .error (.txnNotBegun "T1") := by
  rfl

/-- C3 (amended): an `R`, `W`, or `end` naming a transaction id that was
never begun raises `ValueError` to the caller, and a read by a begun,
active, unblocked transaction of a variable index outside 1..20 that it
has not itself written raises `KeyError`; such usage errors are not
reported to the trace. -/
theorem c3_usage_errors_raise (tm : TM) (tid : String) (x : Nat) (v : Int) :
    (alookup tm.txns tid = none →
      step tm (.readT tid x) = .error (.txnNotBegun tid) ∧
      step tm (.writeT tid x v) = .error (.txnNotBegun tid) ∧
      step tm (.endT tid) = .error (.txnNotBegun tid)) ∧
    (∀ t, alookup tm.txns tid = some t → t.status = .active →
      alookup tm.blockedReads tid = none → alookup t.writeBuffer x = none →
      alookup tm.vars x = none →
      step tm (.readT tid x) = .error (.keyError x)) := by
  constructor
  · intro h
    refine ⟨?_, ?_, ?_⟩ <;> simp [step, readOp, writeOp, endOp, ensureTxn, h]
  · intro t h hs hb hw hv
    simp [step, readOp, ensureTxn, h, hs, hb, hw, hv]

theorem c3_usage_errors_raise_witness :
    (alookup initTM.txns "T9" = none ∧
      step initTM (.readT "T9" 1) = .error (.txnNotBegun "T9")) ∧
    (alookup c3tm.txns "T1" = some (txnOf c3tm "T1") ∧
      (txnOf c3tm "T1").status = .active ∧
      alookup c3tm.blockedReads "T1" = none ∧
      alookup (txnOf c3tm "T1").writeBuffer 25 = none ∧
      alookup c3tm.vars 25 = none ∧
      step c3tm (.readT "T1" 25) = .error (.keyError 25)) :=
  ⟨⟨by decide, ((c3_usage_errors_raise initTM "T9" 1 0).1 (by decide)).1⟩,
   ⟨by decide, by decide, by decide, by decide, by decide,
    (c3_usage_errors_raise c3tm "T1" 25 0).2 (txnOf c3tm "T1")
      (by decide) (by decide) (by decide) (by decide) (by decide)⟩⟩

/-- C4 (counterexample): on `c4Script` the read of `x1` blocks `T1`
(home site 2 is down), yet the subsequent `W(T1, x2, 5)` is processed:
it mutates `T1`'s `write_buffer` and emits a buffered trace event while
the blocked entry is still pending. -/
theorem c4_counterexample :
    alookup (okSt (run (c4Script.take 3))).blockedReads "T1" = some (1, 10, [2]) ∧
    (alookup (okSt (run (c4Script.take 3))).txns "T1").map Transaction.writeBuffer =
      some [] ∧
    alookup (okSt (run c4Script)).blockedReads "T1" = some (1, 10, [2]) ∧
    (alookup (okSt (run c4Script)).txns "T1").map Transaction.writeBuffer =
      some [(2, 5)] ∧
    Event.buffered "T1" 2 5 ∈ okEvs (run c4Script) := by
  decide

/-- C4 (amended): only a subsequent `R` on a transaction holding a
pending blocked read is ignored — it changes no state and emits no
event; `W` and `end` on such a transaction are processed normally. -/
theorem c4_blocked_read_ignored (tm : TM) (tid : String) (x : Nat) (t : Transaction)
    (h : alookup tm.txns tid = some t) (hs : t.status = .active)
    (hb : (alookup tm.blockedReads tid).isSome = true) :
    readOp tm tid x = .ok (tm, []) := by
  simp [readOp, ensureTxn, h, hs, hb]

theorem c4_blocked_read_ignored_witness :
    (alookup c4tm.txns "T1" = some (txnOf c4tm "T1") ∧
      (txnOf c4tm "T1").status = .active ∧
      (alookup c4tm.blockedReads "T1").isSome = true) ∧
    readOp c4tm "T1" 4 = .ok (c4tm, []) :=
  ⟨⟨by decide, by decide, by decide⟩,
   c4_blocked_read_ignored c4tm "T1" 4 (txnOf c4tm "T1") (by decide) (by decide) (by decide)⟩

/-- C5 (counterexample): in `tmC5` the committed reader `Tr` of `x1`
has interval `[0,3]` and the committed writer `Tw` of `x1` has
interval `[3,5]`; the closed intervals touch at the equal endpoints
3 and 3, so the claim asserts the RW edge `Tr → Tw` is added — but the
code's strict test omits it. -/
theorem c5_counterexample :
    "Tr" ∈ nodesOf tmC5 "Tw" ∧ "Tw" ∈ nodesOf tmC5 "Tw" ∧
    "Tr" ∈ (alookup tmC5.readers 1).getD [] ∧ writesVar tmC5 "Tw" 1 = true ∧
    closedOverlap (interval tmC5 "Tr") (interval tmC5 "Tw") = true ∧
    "Tw" ∉ succs (buildConflictGraph tmC5 "Tw") "Tr" := by
  decide

/-- C5 (amended): the RW edge `r → w` is added iff the intervals
strictly overlap, `r_start < w_end ∧ w_start < r_end`; in particular no
edge is added when the intervals touch only at equal endpoints. -/
theorem c5_rw_edge_iff_strict_overlap (tm : TM) (nodes : List String) (r w : String) :
    (r, w) ∈ rwEdges tm nodes ↔
      ∃ x rs, (x, rs) ∈ tm.readers ∧ r ∈ rs ∧ r ∈ nodes ∧ w ∈ nodes ∧
        writesVar tm w x = true ∧ w ≠ r ∧
        (interval tm r).1 < (interval tm w).2 ∧ (interval tm w).1 < (interval tm r).2 := by
  unfold rwEdges
  simp only [List.mem_flatMap, List.mem_filter, List.mem_filterMap, decide_eq_true_eq]
  constructor
  · rintro ⟨⟨x, rs⟩, hmem, r', ⟨hr'rs, hr'n⟩, w', hw', hsome⟩
    by_cases hrw : w' = r'
    · simp [hrw] at hsome
    · rw [if_neg hrw] at hsome
      by_cases hovl : strictOverlap (interval tm r') (interval tm w') = true
      · rw [if_pos hovl] at hsome
        have he1 : r' = r := congrArg Prod.fst (Option.some.inj hsome)
        have he2 : w' = w := congrArg Prod.snd (Option.some.inj hsome)
        subst he1; subst he2
        unfold strictOverlap at hovl
        rw [Bool.and_eq_true, decide_eq_true_eq, decide_eq_true_eq] at hovl
        exact ⟨x, rs, hmem, hr'rs, hr'n, hw'.1, hw'.2, hrw, hovl.1, hovl.2⟩
      · rw [if_neg hovl] at hsome
        cases hsome
  · rintro ⟨x, rs, hmem, hr, hrn, hwn, hwrites, hne, h1, h2⟩
    refine ⟨⟨x, rs⟩, hmem, r, ⟨hr, hrn⟩, w, ⟨hwn, hwrites⟩, ?_⟩
    rw [if_neg hne, if_pos]
    unfold strictOverlap
    simp [h1, h2]

/-! #### Shared lemmas about `latest_before` -/

theorem keepLater_cases (ts : Nat) (best : Option Version) (u : Version) :
    keepLater ts best u = best ∨ (u.commitTime ≤ ts ∧ keepLater ts best u = some u) := by
  unfold keepLater
  cases best with
  | none =>
    simp only []
    split_ifs with hu
    · right; exact ⟨hu, rfl⟩
    · left; rfl
  | some b =>
    simp only []
    split_ifs with hu hlt
    · right; exact ⟨hu, rfl⟩
    · left; rfl
    · left; rfl

theorem keepLater_le (ts : Nat) (best : Option Version) (u : Version)
    (hb : ∀ b, best = some b → b.commitTime ≤ ts) :
    ∀ b, keepLater ts best u = some b → b.commitTime ≤ ts := by
  intro b hkb
  rcases keepLater_cases ts best u with he | ⟨hu, he⟩
  · exact hb b (he ▸ hkb)
  · rw [he] at hkb
    cases hkb
    exact hu

theorem keepLater_best_mono (ts : Nat) (b0 : Version) (u : Version) :
    ∀ b, keepLater ts (some b0) u = some b → b0.commitTime ≤ b.commitTime := by
  intro b hkb
  unfold keepLater at hkb
  simp only [] at hkb
  split_ifs at hkb with hu hlt
  · cases hkb
    exact le_of_lt hlt
  · cases hkb
    exact le_rfl
  · cases hkb
    exact le_rfl

theorem keepLater_u_mono (ts : Nat) (best : Option Version) (u : Version)
    (hu : u.commitTime ≤ ts) :
    ∀ b, keepLater ts best u = some b → u.commitTime ≤ b.commitTime := by
  intro b hkb
  unfold keepLater at hkb
  rw [if_pos hu] at hkb
  cases best with
  | none =>
    simp only [] at hkb
    cases hkb
    exact le_rfl
  | some b0 =>
    simp only [] at hkb
    split_ifs at hkb with hlt
    · cases hkb; exact le_rfl
    · cases hkb
      exact le_of_not_lt hlt

theorem keepLater_isSome_of_le (ts : Nat) (best : Option Version) (u : Version)
    (hu : u.commitTime ≤ ts) : ∃ b, keepLater ts best u = some b := by
  unfold keepLater
  rw [if_pos hu]
  cases best with
  | none => exact ⟨u, rfl⟩
  | some b0 =>
    simp only []
    split_ifs
    · exact ⟨u, rfl⟩
    · exact ⟨b0, rfl⟩

theorem keepLater_isSome_of_best (ts : Nat) (b0 : Version) (u : Version) :
    ∃ b, keepLater ts (some b0) u = some b := by
  unfold keepLater
  simp only []
  split_ifs
  · exact ⟨u, rfl⟩
  · exact ⟨b0, rfl⟩
  · exact ⟨b0, rfl⟩

theorem latestBeforeAux_spec (ts : Nat) :
    ∀ (l : List Version) (best : Option Version),
      (∀ b, best = some b → b.commitTime ≤ ts) →
      ∀ v, latestBeforeAux ts l best = some v →
        (v ∈ l ∨ best = some v) ∧ v.commitTime ≤ ts ∧
        (∀ w ∈ l, w.commitTime ≤ ts → w.commitTime ≤ v.commitTime) ∧
        (∀ b, best = some b → b.commitTime ≤ v.commitTime) := by
  intro l
  induction l with
  | nil =>
    intro best hb v hv
    rw [latestBeforeAux] at hv
    refine ⟨Or.inr hv, hb v hv, by simp, fun b hbb => ?_⟩
    rw [hv] at hbb
    cases hbb
    exact le_rfl
  | cons u rest ih =>
    intro best hb v hv
    rw [latestBeforeAux] at hv
    have hb' := keepLater_le ts best u hb
    obtain ⟨hmem, hle, hmax, hble⟩ := ih (keepLater ts best u) hb' v hv
    refine ⟨?_, hle, ?_, ?_⟩
    · rcases hmem with hm | hm
      · exact Or.inl (List.mem_cons_of_mem _ hm)
      · rcases keepLater_cases ts best u with he | ⟨hu, he⟩
        · exact Or.inr (he ▸ hm)
        · rw [he] at hm
          cases hm
          exact Or.inl (List.mem_cons_self ..)
    · intro w hw hwts
      rcases List.mem_cons.mp hw with hwu | hwr
      · subst hwu
        obtain ⟨b, hkb⟩ := keepLater_isSome_of_le ts best w hwts
        exact le_trans (keepLater_u_mono ts best w hwts b hkb) (hble b hkb)
      · exact hmax w hwr hwts
    · intro b0 hbest
      subst hbest
      obtain ⟨b, hkb⟩ := keepLater_isSome_of_best ts b0 u
      exact le_trans (keepLater_best_mono ts b0 u b hkb) (hble b hkb)

theorem latestBefore_spec (versions : List Version) (ts : Nat) (v : Version)
    (h : latestBefore versions ts = some v) :
    v ∈ versions ∧ v.commitTime ≤ ts ∧
      ∀ w ∈ versions, w.commitTime ≤ ts → w.commitTime ≤ v.commitTime := by
  obtain ⟨hmem, hle, hmax, _⟩ :=
    latestBeforeAux_spec ts versions none (by intro b hb; cases hb) v h
  rcases hmem with hm | hm
  · exact ⟨hm, hle, hmax⟩
  · cases hm

/-- C6: a successful (non-waiting, non-aborting) read `R(T, x)` returns
the buffered value when `T` previously wrote `x` (read-your-own-write),
and otherwise the value of the latest version of `x` whose commit time
is at or before `T.start_time` (`latest_before`, shown maximal among
the versions committed at or before the start). -/
theorem c6_snapshot_read (tm : TM) (tid : String) (x : Nat) (t : Transaction)
    (tm' : TM) (evs : List Event) (v : Int)
    (h : alookup tm.txns tid = some t)
    (hr : readOp tm tid x = .ok (tm', evs))
    (hv : Event.readVal x v ∈ evs) :
    (∃ bv, alookup t.writeBuffer x = some bv ∧ v = bv) ∨
    (alookup t.writeBuffer x = none ∧
      ∃ versions snap, alookup tm.vars x = some versions ∧
        latestBefore versions t.startTime = some snap ∧ v = snap.value ∧
        snap ∈ versions ∧ snap.commitTime ≤ t.startTime ∧
        ∀ w ∈ versions, w.commitTime ≤ t.startTime →
          w.commitTime ≤ snap.commitTime) := by
  unfold readOp at hr
  rw [ensureTxn_ok h] at hr
  simp only [] at hr
  by_cases hst : t.status ≠ .active
  · rw [if_pos hst] at hr
    cases hr
    simp at hv
  · rw [if_neg hst] at hr
    by_cases hbl : (alookup tm.blockedReads tid).isSome = true
    · rw [if_pos hbl] at hr
      cases hr
      simp at hv
    · rw [if_neg hbl] at hr
      cases hwb : alookup t.writeBuffer x with
      | some val =>
        rw [hwb] at hr
        simp only [] at hr
        cases hr
        left
        refine ⟨val, rfl, ?_⟩
        simpa using hv
      | none =>
        rw [hwb] at hr
        simp only [] at hr
        cases hvx : alookup tm.vars x with
        | none =>
          rw [hvx] at hr
          cases hr
        | some versions =>
          rw [hvx] at hr
          simp only [] at hr
          cases hlb : latestBefore versions t.startTime with
          | none =>
            rw [hlb] at hr
            simp only [] at hr
            cases hr
            simp at hv
          | some snap =>
            rw [hlb] at hr
            simp only [] at hr
            obtain ⟨hmem, hle, hmax⟩ := latestBefore_spec versions t.startTime snap hlb
            by_cases hrep : isReplicated x = false
            · rw [if_pos hrep] at hr
              by_cases hup : (siteOf tm (homeSite x)).isUp = false
              · rw [if_pos hup] at hr
                cases hr
                simp at hv
              · rw [if_neg hup] at hr
                by_cases hhome : homeSite x ∉ snap.sites
                · rw [if_pos hhome] at hr
                  cases hr
                  simp at hv
                · rw [if_neg hhome] at hr
                  cases hr
                  right
                  refine ⟨rfl, versions, snap, rfl, hlb, ?_, hmem, hle, hmax⟩
                  simpa using hv
            · rw [if_neg hrep] at hr
              by_cases hel : snap.sites.filter
                  (fun s => siteUpContinuously (siteOf tm s) snap.commitTime t.startTime) = []
              · rw [if_pos hel] at hr
                cases hr
                simp at hv
              · rw [if_neg hel] at hr
                by_cases hur : (snap.sites.filter
                    (fun s => siteUpContinuously (siteOf tm s) snap.commitTime t.startTime)).filter
                    (fun s => (siteOf tm s).isUp && ((alookup (siteOf tm s).canRead x).getD true)) ≠ []
                · rw [if_pos hur] at hr
                  cases hr
                  right
                  refine ⟨rfl, versions, snap, rfl, hlb, ?_, hmem, hle, hmax⟩
                  simpa using hv
                · rw [if_neg hur] at hr
                  cases hr
                  simp at hv

theorem c6_snapshot_read_witness :
    (alookup c6tm.txns "T1" = some (txnOf c6tm "T1")) ∧
    readOp c6tm "T1" 2 = .ok (c6res.1, c6res.2) ∧
    Event.readVal 2 20 ∈ c6res.2 ∧
    ((∃ bv, alookup (txnOf c6tm "T1").writeBuffer 2 = some bv ∧ (20 : Int) = bv) ∨
     (alookup (txnOf c6tm "T1").writeBuffer 2 = none ∧
      ∃ versions snap, alookup c6tm.vars 2 = some versions ∧
        latestBefore versions (txnOf c6tm "T1").startTime = some snap ∧
        (20 : Int) = snap.value ∧
        snap ∈ versions ∧ snap.commitTime ≤ (txnOf c6tm "T1").startTime ∧
        ∀ w ∈ versions, w.commitTime ≤ (txnOf c6tm "T1").startTime →
          w.commitTime ≤ snap.commitTime)) :=
  ⟨by decide, by rfl, by decide,
   c6_snapshot_read c6tm "T1" 2 (txnOf c6tm "T1") c6res.1 c6res.2 20
     (by decide) (by rfl) (by decide)⟩

/-- C7: at `end(tid)` (the transaction not already aborted), Gate A
aborts `tid` with reason "site failed after write" — changing nothing
but `tid`'s status and short-circuiting the later gates — if and only
if some site in `site_write_times` has a failure `f` with
`first_write_time < f ≤ now`. -/
theorem c7_gateA_abort_iff (tm : TM) (tid : String) (t : Transaction)
    (h : alookup tm.txns tid = some t) (hs : t.status ≠ .aborted) :
    (∃ s, endOp tm tid = .ok (setStatus tm tid t .aborted,
        [.endE tid tm.time, .aborts tid (some (.siteFailedAfterWrite s))])) ↔
      ∃ s w, (s, w) ∈ t.siteWriteTimes ∧
        ∃ f ∈ (siteOf tm s).failureTimes, w < f ∧ f ≤ tm.time := by
  rw [← gateAFail_isSome_iff]
  constructor
  · rintro ⟨s, heq⟩
    cases hA : gateAFail tm t.siteWriteTimes with
    | some s' => simp
    | none =>
      exfalso
      cases hB : gateBFail tm tid t.startTime t.writeBuffer with
      | some q =>
        obtain ⟨x', o'⟩ := q
        rw [endOp_gateB h hs hA hB] at heq
        simp at heq
      | none =>
        cases hC : shouldAbortDueToCycle tm tid with
        | true =>
          rw [endOp_gateC h hs hA hB hC] at heq
          simp at heq
        | false =>
          rcases endOp_commit_shape h hs hA hB hC with ⟨e, he⟩ | ⟨tm2, he⟩ <;>
            rw [he] at heq <;> simp at heq
  · intro hsome
    obtain ⟨s, hA⟩ := Option.isSome_iff_exists.mp hsome
    exact ⟨s, endOp_gateA h hs hA⟩

theorem c7_gateA_abort_iff_witness :
    (alookup c7tm.txns "T1" = some (txnOf c7tm "T1")) ∧
    (txnOf c7tm "T1").status ≠ .aborted ∧
    ((∃ s, endOp c7tm "T1" = .ok (setStatus c7tm "T1" (txnOf c7tm "T1") .aborted,
        [.endE "T1" c7tm.time, .aborts "T1" (some (.siteFailedAfterWrite s))])) ↔
      ∃ s w, (s, w) ∈ (txnOf c7tm "T1").siteWriteTimes ∧
        ∃ f ∈ (siteOf c7tm s).failureTimes, w < f ∧ f ≤ c7tm.time) :=
  ⟨by decide, by decide,
   c7_gateA_abort_iff c7tm "T1" (txnOf c7tm "T1") (by decide) (by decide)⟩

/-- C8 (first-committer-wins): at `end(tid)` past Gate A, Gate B aborts
`tid` if and only if some buffered variable's most recent committer
(`last_writer`) is a different transaction whose commit time is after
`tid`'s start — so a transaction that started before another's commit
of a shared variable aborts, while a transaction whose start is at or
after that commit time, or whose last committer is itself, passes. -/
theorem c8_gateB_abort_iff (tm : TM) (tid : String) (t : Transaction)
    (h : alookup tm.txns tid = some t) (hs : t.status ≠ .aborted)
    (hA : gateAFail tm t.siteWriteTimes = none) :
    (∃ x o, endOp tm tid = .ok (setStatus tm tid t .aborted,
        [.endE tid tm.time, .aborts tid (some (.firstCommitterWins x o))])) ↔
      ∃ x v tid' ct, (x, v) ∈ t.writeBuffer ∧
        alookup tm.varLastWriter x = some (tid', ct) ∧ tid' ≠ tid ∧ t.startTime < ct := by
  rw [← gateBFail_isSome_iff]
  constructor
  · rintro ⟨x, o, heq⟩
    cases hB : gateBFail tm tid t.startTime t.writeBuffer with
    | some q => simp
    | none =>
      exfalso
      cases hC : shouldAbortDueToCycle tm tid with
      | true =>
        rw [endOp_gateC h hs hA hB hC] at heq
        simp at heq
      | false =>
        rcases endOp_commit_shape h hs hA hB hC with ⟨e, he⟩ | ⟨tm2, he⟩ <;>
          rw [he] at heq <;> simp at heq
  · intro hsome
    obtain ⟨q, hB⟩ := Option.isSome_iff_exists.mp hsome
    obtain ⟨x', o'⟩ := q
    exact ⟨x', o', endOp_gateB h hs hA hB⟩

theorem c8_gateB_abort_iff_witness :
    (alookup c8tm.txns "T2" = some (txnOf c8tm "T2")) ∧
    (txnOf c8tm "T2").status ≠ .aborted ∧
    gateAFail c8tm (txnOf c8tm "T2").siteWriteTimes = none ∧
    ((∃ x o, endOp c8tm "T2" = .ok (setStatus c8tm "T2" (txnOf c8tm "T2") .aborted,
        [.endE "T2" c8tm.time, .aborts "T2" (some (.firstCommitterWins x o))])) ↔
      ∃ x v tid' ct, (x, v) ∈ (txnOf c8tm "T2").writeBuffer ∧
        alookup c8tm.varLastWriter x = some (tid', ct) ∧ tid' ≠ "T2" ∧
        (txnOf c8tm "T2").startTime < ct) :=
  ⟨by decide, by decide, by decide,
   c8_gateB_abort_iff c8tm "T2" (txnOf c8tm "T2") (by decide) (by decide) (by decide)⟩

/-! #### Correctness of the cycle-detecting DFS -/

theorem alookup_mem {α β : Type} [DecidableEq α] {l : List (α × β)} {k : α} {v : β}
    (h : alookup l k = some v) : (k, v) ∈ l := by
  induction l with
  | nil => cases h
  | cons p rest ih =>
    obtain ⟨k', v'⟩ := p
    rw [alookup] at h
    split_ifs at h with he
    · cases h
      subst he
      exact List.mem_cons_self ..
    · exact List.mem_cons_of_mem _ (ih h)

theorem succs_subset_allNodes {g : List (String × List String)} {u v : String}
    (h : v ∈ succs g u) : v ∈ allNodes g := by
  unfold succs at h
  cases hl : alookup g u with
  | none =>
    rw [hl, Option.getD_none] at h
    cases h
  | some l =>
    rw [hl, Option.getD_some] at h
    unfold allNodes
    rw [List.mem_flatMap]
    exact ⟨(u, l), alookup_mem hl, List.mem_cons_of_mem _ h⟩

theorem chain_reaches_head (g : List (String × List String)) :
    ∀ (st : List String) (a : String),
      List.Chain' (fun p q => GEdge g q p) (a :: st) →
      ∀ u ∈ a :: st, Relation.ReflTransGen (GEdge g) u a := by
  intro st
  induction st with
  | nil =>
    intro a _ u hu
    rw [List.mem_singleton] at hu
    subst hu
    exact .refl
  | cons b st' ih =>
    intro a hchain u hu
    have hedge : GEdge g b a := (List.chain'_cons.mp hchain).1
    have hch' := (List.chain'_cons.mp hchain).2
    rcases List.mem_cons.mp hu with he | hu'
    · subst he
      exact .refl
    · exact (ih b hch' u hu').tail hedge

theorem chain_root_reaches (g : List (String × List String)) :
    ∀ (st : List String) (a : String) (tid : String),
      List.Chain' (fun p q => GEdge g q p) (a :: st) →
      (a :: st).getLast? = some tid →
      ∀ u ∈ a :: st, Relation.ReflTransGen (GEdge g) tid u := by
  intro st
  induction st with
  | nil =>
    intro a tid _ hlast u hu
    rw [List.mem_singleton] at hu
    subst hu
    cases hlast
    exact .refl
  | cons b st' ih =>
    intro a tid hchain hlast u hu
    have hedge : GEdge g b a := (List.chain'_cons.mp hchain).1
    have hch' := (List.chain'_cons.mp hchain).2
    have hlast' : (b :: st').getLast? = some tid := by
      rwa [List.getLast?_cons_cons] at hlast
    rcases List.mem_cons.mp hu with he | hu'
    · subst he
      exact (ih b tid hch' hlast' b (List.mem_cons_self ..)).tail hedge
    · exact ih b tid hch' hlast' u hu'

theorem scanList_sound (g : List (String × List String)) (tid : String) :
    ∀ (fuel : Nat) (vs : List String) (u : String) (srest visited : List String),
      List.Chain' (fun p q => GEdge g q p) (u :: srest) →
      (u :: srest).getLast? = some tid →
      (∀ w ∈ vs, GEdge g u w) →
      (scanList tid (dfsVisit g tid fuel) vs visited (u :: srest)).1 = true →
      ReachableCycle g tid := by
  intro fuel
  induction fuel with
  | zero =>
    intro vs
    induction vs with
    | nil =>
      intro u srest visited _ _ _ hres
      rw [scanList] at hres
      cases hres
    | cons v rest ihv =>
      intro u srest visited hchain hlast hsucc hres
      rw [scanList] at hres
      split_ifs at hres with hvis hback
      · obtain ⟨hvstack, htid⟩ := hback
        refine ⟨v, chain_root_reaches g srest u tid hchain hlast v hvstack, ?_⟩
        exact Relation.TransGen.tail'
          (chain_reaches_head g srest u hchain v hvstack)
          (hsucc v (List.mem_cons_self ..))
      · exact ihv u srest visited hchain hlast
          (fun w hw => hsucc w (List.mem_cons_of_mem _ hw)) hres
      · rw [dfsVisit] at hres
        simp only [] at hres
        exact ihv u srest visited hchain hlast
          (fun w hw => hsucc w (List.mem_cons_of_mem _ hw)) hres
  | succ n ihf =>
    intro vs
    induction vs with
    | nil =>
      intro u srest visited _ _ _ hres
      rw [scanList] at hres
      cases hres
    | cons v rest ihv =>
      intro u srest visited hchain hlast hsucc hres
      rw [scanList] at hres
      split_ifs at hres with hvis hback
      · obtain ⟨hvstack, htid⟩ := hback
        refine ⟨v, chain_root_reaches g srest u tid hchain hlast v hvstack, ?_⟩
        exact Relation.TransGen.tail'
          (chain_reaches_head g srest u hchain v hvstack)
          (hsucc v (List.mem_cons_self ..))
      · exact ihv u srest visited hchain hlast
          (fun w hw => hsucc w (List.mem_cons_of_mem _ hw)) hres
      · rcases hdv : dfsVisit g tid (n + 1) v visited (u :: srest) with ⟨b, vis₁⟩
        rw [hdv] at hres
        cases b with
        | true =>
          rw [dfsVisit] at hdv
          have hchain' : List.Chain' (fun p q => GEdge g q p) (v :: u :: srest) :=
            List.chain'_cons.mpr ⟨hsucc v (List.mem_cons_self ..), hchain⟩
          have hlast' : (v :: u :: srest).getLast? = some tid := by
            rwa [List.getLast?_cons_cons]
          exact ihf (succs g v) v (u :: srest) (v :: visited) hchain' hlast'
            (fun w hw => hw) (by rw [hdv])
        | false =>
          simp only [] at hres
          exact ihv u srest vis₁ hchain hlast
            (fun w hw => hsucc w (List.mem_cons_of_mem _ hw)) hres

theorem filter_not_mem_mono {l vis1 vis2 : List String}
    (hsub : ∀ a, a ∈ vis1 → a ∈ vis2) :
    (l.filter (fun a => decide (a ∉ vis2))).length ≤
      (l.filter (fun a => decide (a ∉ vis1))).length := by
  induction l with
  | nil => simp
  | cons a l' ih =>
    rw [List.filter_cons, List.filter_cons]
    by_cases h1 : a ∈ vis1
    · have h2 : a ∈ vis2 := hsub a h1
      rw [if_neg (by simpa using h2), if_neg (by simpa using h1)]
      exact ih
    · by_cases h2 : a ∈ vis2
      · rw [if_neg (by simpa using h2), if_pos (by simpa using h1)]
        exact le_trans ih (Nat.le_succ _)
      · rw [if_pos (by simpa using h2), if_pos (by simpa using h1)]
        exact Nat.succ_le_succ ih

theorem filter_not_mem_cons_lt {l vis : List String} {v : String}
    (hv : v ∈ l) (hnv : v ∉ vis) :
    (l.filter (fun a => decide (a ∉ v :: vis))).length <
      (l.filter (fun a => decide (a ∉ vis))).length := by
  induction l with
  | nil => cases hv
  | cons a l' ih =>
    rw [List.filter_cons, List.filter_cons]
    by_cases hav : a = v
    · subst hav
      rw [if_neg (by simp), if_pos (by simpa using hnv)]
      have hmono : ∀ b, b ∈ vis → b ∈ a :: vis := fun b hb => List.mem_cons_of_mem _ hb
      exact Nat.lt_succ_of_le (filter_not_mem_mono hmono)
    · have hv' : v ∈ l' := by
        rcases List.mem_cons.mp hv with he | hm
        · exact absurd he.symm hav
        · exact hm
      by_cases ha : a ∈ vis
      · rw [if_neg (by simp [ha]), if_neg (by simpa using ha)]
        exact ih hv'
      · have ha' : a ∉ v :: vis := by
          rw [List.mem_cons]
          rintro (he | hm)
          · exact hav he
          · exact ha hm
        rw [if_pos (by simpa using ha'), if_pos (by simpa using ha)]
        exact Nat.succ_lt_succ (ih hv')

theorem closedReach (g : List (String × List String)) (vis st : List String)
    (hcl : ∀ a ∈ vis, a ∉ st → ∀ b, GEdge g a b → b ∈ vis ∧ b ∉ st) :
    ∀ a d, Relation.ReflTransGen (GEdge g) a d → a ∈ vis → a ∉ st →
      d ∈ vis ∧ d ∉ st := by
  intro a d hr
  induction hr with
  | refl => intro h1 h2; exact ⟨h1, h2⟩
  | tail _ hedge ih =>
    intro h1 h2
    obtain ⟨hb1, hb2⟩ := ih h1 h2
    exact hcl _ hb1 hb2 _ hedge

theorem scanList_complete (g : List (String × List String)) (tid : String) :
    ∀ (fuel : Nat) (vs visited stack vis : List String),
      tid ∈ stack →
      (∀ s ∈ stack, s ∈ visited) →
      (∀ a ∈ visited, a ∉ stack → ∀ b, GEdge g a b → b ∈ visited ∧ b ∉ stack) →
      (∀ a ∈ visited, a ∉ stack → ¬ Relation.TransGen (GEdge g) a a) →
      (∀ w ∈ vs, w ∈ allNodes g) →
      ((allNodes g).filter (fun a => decide (a ∉ visited))).length ≤ fuel →
      scanList tid (dfsVisit g tid fuel) vs visited stack = (false, vis) →
      (∀ a ∈ visited, a ∈ vis) ∧
      (∀ a ∈ vis, a ∉ stack → ∀ b, GEdge g a b → b ∈ vis ∧ b ∉ stack) ∧
      (∀ a ∈ vis, a ∉ stack → ¬ Relation.TransGen (GEdge g) a a) ∧
      (∀ w ∈ vs, w ∈ vis ∧ w ∉ stack) := by
  intro fuel
  induction fuel with
  | zero =>
    intro vs
    induction vs with
    | nil =>
      intro visited stack vis _ _ hcl hnc _ _ hres
      rw [scanList] at hres
      cases hres
      exact ⟨fun a ha => ha, hcl, hnc, by simp⟩
    | cons v rest ihv =>
      intro visited stack vis htid hst hcl hnc hall hcount hres
      by_cases hvis : v ∈ visited
      · rw [scanList, if_pos hvis] at hres
        split_ifs at hres with hback
        · cases hres
        · have hvns : v ∉ stack := fun hvs => hback ⟨hvs, htid⟩
          obtain ⟨q1, q2, q3, q4⟩ := ihv visited stack vis htid hst hcl hnc
            (fun w hw => hall w (List.mem_cons_of_mem _ hw)) hcount hres
          exact ⟨q1, q2, q3, fun w hw => by
            rcases List.mem_cons.mp hw with he | hm
            · subst he; exact ⟨q1 w hvis, hvns⟩
            · exact q4 w hm⟩
      · exfalso
        have hvall : v ∈ allNodes g := hall v (List.mem_cons_self ..)
        have : 0 < ((allNodes g).filter (fun a => decide (a ∉ visited))).length := by
          rw [List.length_pos_iff_exists_mem]
          exact ⟨v, List.mem_filter.mpr ⟨hvall, by simpa using hvis⟩⟩
        omega
  | succ m ihm =>
    intro vs
    induction vs with
    | nil =>
      intro visited stack vis _ _ hcl hnc _ _ hres
      rw [scanList] at hres
      cases hres
      exact ⟨fun a ha => ha, hcl, hnc, by simp⟩
    | cons v rest ihv =>
      intro visited stack vis htid hst hcl hnc hall hcount hres
      by_cases hvis : v ∈ visited
      · rw [scanList, if_pos hvis] at hres
        split_ifs at hres with hback
        · cases hres
        · have hvns : v ∉ stack := fun hvs => hback ⟨hvs, htid⟩
          obtain ⟨q1, q2, q3, q4⟩ := ihv visited stack vis htid hst hcl hnc
            (fun w hw => hall w (List.mem_cons_of_mem _ hw)) hcount hres
          exact ⟨q1, q2, q3, fun w hw => by
            rcases List.mem_cons.mp hw with he | hm
            · subst he; exact ⟨q1 w hvis, hvns⟩
            · exact q4 w hm⟩
      · rw [scanList, if_neg hvis] at hres
        have hvns : v ∉ stack := fun hvs => hvis (hst v hvs)
        have hvall : v ∈ allNodes g := hall v (List.mem_cons_self ..)
        rcases hdv : dfsVisit g tid (m + 1) v visited stack with ⟨b, vis₁⟩
        rw [hdv] at hres
        cases b with
        | true => cases hres
        | false =>
          simp only [] at hres
          -- the inner visit: dfsVisit (m+1) v = scanList (dfsVisit m) over succs v
          rw [dfsVisit] at hdv
          have hcount' :
              ((allNodes g).filter (fun a => decide (a ∉ v :: visited))).length ≤ m := by
            have := filter_not_mem_cons_lt hvall hvis
            omega
          obtain ⟨p1, p2, p3, p4⟩ := ihm (succs g v) (v :: visited) (v :: stack) vis₁
            (List.mem_cons_of_mem _ htid)
            (fun s hs => by
              rcases List.mem_cons.mp hs with he | hm2
              · subst he; exact List.mem_cons_self ..
              · exact List.mem_cons_of_mem _ (hst s hm2))
            (fun a ha hans b hedge => by
              have hav : a ≠ v := fun he => hans (he ▸ List.mem_cons_self ..)
              have ha' : a ∈ visited := by
                rcases List.mem_cons.mp ha with he | hm2
                · exact absurd he hav
                · exact hm2
              have hans' : a ∉ stack := fun hm2 => hans (List.mem_cons_of_mem _ hm2)
              obtain ⟨hb1, hb2⟩ := hcl a ha' hans' b hedge
              refine ⟨List.mem_cons_of_mem _ hb1, ?_⟩
              rw [List.mem_cons]
              rintro (he | hm2)
              · exact hvis (he ▸ hb1)
              · exact hb2 hm2)
            (fun a ha hans => by
              have hav : a ≠ v := fun he => hans (he ▸ List.mem_cons_self ..)
              have ha' : a ∈ visited := by
                rcases List.mem_cons.mp ha with he | hm2
                · exact absurd he hav
                · exact hm2
              exact hnc a ha' (fun hm2 => hans (List.mem_cons_of_mem _ hm2)))
            (fun w hw => succs_subset_allNodes hw)
            hcount' hdv
          -- pop v from the stack: invariants for (vis₁, stack)
          have hvvis₁ : v ∈ vis₁ := p1 v (List.mem_cons_self ..)
          have hvisv₁ : ∀ a ∈ visited, a ∈ vis₁ :=
            fun a ha => p1 a (List.mem_cons_of_mem _ ha)
          have hcl₁ : ∀ a ∈ vis₁, a ∉ stack → ∀ b, GEdge g a b → b ∈ vis₁ ∧ b ∉ stack := by
            intro a ha hans b hedge
            by_cases hav : a = v
            · subst hav
              obtain ⟨hb1, hb2⟩ := p4 b hedge
              exact ⟨hb1, fun hm2 => hb2 (List.mem_cons_of_mem _ hm2)⟩
            · have hans' : a ∉ v :: stack := by
                rw [List.mem_cons]
                rintro (he | hm2)
                · exact hav he
                · exact hans hm2
              obtain ⟨hb1, hb2⟩ := p2 a ha hans' b hedge
              exact ⟨hb1, fun hm2 => hb2 (List.mem_cons_of_mem _ hm2)⟩
          have hnc₁ : ∀ a ∈ vis₁, a ∉ stack → ¬ Relation.TransGen (GEdge g) a a := by
            intro a ha hans htg
            by_cases hav : a = v
            · subst hav
              obtain ⟨c, hedge, hrtg⟩ := Relation.TransGen.head'_iff.mp htg
              obtain ⟨hc1, hc2⟩ := p4 c hedge
              obtain ⟨hd1, hd2⟩ := closedReach g vis₁ (a :: stack) p2 c a hrtg hc1 hc2
              exact hd2 (List.mem_cons_self ..)
            · have hans' : a ∉ v :: stack := by
                rw [List.mem_cons]
                rintro (he | hm2)
                · exact hav he
                · exact hans hm2
              exact p3 a ha hans' htg
          have hcount₁ :
              ((allNodes g).filter (fun a => decide (a ∉ vis₁))).length ≤ m + 1 :=
            le_trans (filter_not_mem_mono hvisv₁) hcount
          obtain ⟨q1, q2, q3, q4⟩ := ihv vis₁ stack vis htid
            (fun s hs => hvisv₁ s (hst s hs)) hcl₁ hnc₁
            (fun w hw => hall w (List.mem_cons_of_mem _ hw)) hcount₁ hres
          refine ⟨fun a ha => q1 a (hvisv₁ a ha), q2, q3, fun w hw => ?_⟩
          rcases List.mem_cons.mp hw with he | hm2
          · subst he; exact ⟨q1 w hvvis₁, hvns⟩
          · exact q4 w hm2

theorem dfsVisit_top_iff (g : List (String × List String)) (tid : String) (m : Nat)
    (hm : (allNodes g).length ≤ m) :
    (dfsVisit g tid (m + 1) tid [] []).1 = true ↔ ReachableCycle g tid := by
  rw [dfsVisit]
  constructor
  · intro h
    exact scanList_sound g tid m (succs g tid) tid [] [tid]
      (List.chain'_singleton tid) rfl (fun w hw => hw) h
  · intro hrc
    rcases hres : scanList tid (dfsVisit g tid m) (succs g tid) [tid] [tid] with ⟨b, vis⟩
    cases b with
    | true => rfl
    | false =>
      exfalso
      obtain ⟨q1, q2, q3, q4⟩ := scanList_complete g tid m (succs g tid) [tid] [tid] vis
        (List.mem_cons_self ..) (fun s hs => hs)
        (fun a ha hna => absurd ha hna) (fun a ha hna => absurd ha hna)
        (fun w hw => succs_subset_allNodes hw)
        (le_trans (List.length_filter_le _ _) hm) hres
      obtain ⟨u, hru, hcu⟩ := hrc
      have hmem : u = tid ∨ (u ∈ vis ∧ u ∉ [tid]) := by
        rcases Relation.ReflTransGen.cases_head hru with he | ⟨c, hedge, hr2⟩
        · exact Or.inl he.symm
        · right
          have hc2 := q4 c hedge
          exact closedReach g vis [tid] q2 c u hr2 hc2.1 hc2.2
      rcases hmem with he | ⟨hu1, hu2⟩
      · subst he
        rcases Relation.TransGen.head'_iff.mp hcu with ⟨c, hedge, hr2⟩
        have hc2 := q4 c hedge
        have hreach := closedReach g vis [u] q2 c u hr2 hc2.1 hc2.2
        exact hreach.2 (List.mem_cons_self ..)
      · exact q3 u hu1 hu2 hcu

/-- The DFS of `_has_cycle_involving` returns `true` exactly when some
directed cycle of the graph is reachable from `tid`. -/
theorem hasCycleInvolving_iff (g : List (String × List String)) (tid : String) :
    hasCycleInvolving g tid = true ↔ ReachableCycle g tid := by
  unfold hasCycleInvolving
  cases hk : alookup g tid with
  | none =>
    rw [if_neg (by simp)]
    simp only [Bool.false_eq_true, false_iff]
    rintro ⟨u, hru, hcu⟩
    have hnil : succs g tid = [] := by
      unfold succs
      rw [hk]
      rfl
    rcases Relation.ReflTransGen.cases_head hru with he | ⟨c, hedge, _⟩
    · subst he
      rcases Relation.TransGen.head'_iff.mp hcu with ⟨c, hedge, _⟩
      unfold GEdge at hedge
      rw [hnil] at hedge
      cases hedge
    · unfold GEdge at hedge
      rw [hnil] at hedge
      cases hedge
  | some l =>
    rw [if_pos (by rfl)]
    exact dfsVisit_top_iff g tid ((allNodes g).length + 1) (Nat.le_succ _)

/-- C1 (counterexample): on `c1Script` the final `end(T3)` aborts `T3`
by cycle detection although `T3` lies on no directed cycle of the
conflict graph built there — the graph is `T3 → T1`, `T1 → T2`,
`T2 → T1`, whose only cycle is between `T1` and `T2`. -/
theorem c1_counterexample :
    Event.aborts "T3" (some .cycleDetected) ∈ okEvs (run c1Script) ∧
    (alookup (okSt (run c1Script)).txns "T3").map Transaction.status = some .aborted ∧
    c1Graph = [("T1", ["T2"]), ("T2", ["T1"]), ("T3", ["T1"])] ∧
    ¬ OnCycle c1Graph "T3" := by
  refine ⟨by decide, by decide, by decide, ?_⟩
  have hg : c1Graph = [("T1", ["T2"]), ("T2", ["T1"]), ("T3", ["T1"])] := by decide
  intro hcyc
  have key : ∀ c : String, ¬ GEdge c1Graph c "T3" := by
    intro c hc
    unfold GEdge succs at hc
    rw [hg] at hc
    simp only [alookup] at hc
    split_ifs at hc <;> simp_all
  unfold OnCycle at hcyc
  cases hcyc with
  | single h1 => exact key _ h1
  | tail _ h1 => exact key _ h1

/-- C1 (amended): at `end(tid)` past Gates A and B, the transaction is
aborted by cycle detection if and only if some directed cycle of the
RW+WW conflict graph is reachable from `tid` — in particular whenever
`tid` itself lies on a cycle, but also when a cycle is merely reachable
from `tid` without passing through it. -/
theorem c1_cycle_abort_iff_reachable (tm : TM) (tid : String) (t : Transaction)
    (h : alookup tm.txns tid = some t) (hs : t.status ≠ .aborted)
    (hA : gateAFail tm t.siteWriteTimes = none)
    (hB : gateBFail tm tid t.startTime t.writeBuffer = none) :
    (endOp tm tid = .ok (setStatus tm tid t .aborted,
        [.endE tid tm.time, .aborts tid (some .cycleDetected)])) ↔
      ReachableCycle (buildConflictGraph tm tid) tid := by
  rw [← hasCycleInvolving_iff]
  constructor
  · intro heq
    cases hC : shouldAbortDueToCycle tm tid with
    | true =>
      unfold shouldAbortDueToCycle at hC
      exact hC
    | false =>
      exfalso
      rcases endOp_commit_shape h hs hA hB hC with ⟨e, he⟩ | ⟨tm2, he⟩ <;>
        rw [he] at heq <;> simp at heq
  · intro hcyc
    exact endOp_gateC h hs hA hB hcyc

theorem c1_cycle_abort_iff_reachable_witness :
    (alookup c1TM.txns "T3" = some (txnOf c1TM "T3")) ∧
    (txnOf c1TM "T3").status ≠ .aborted ∧
    gateAFail c1TM (txnOf c1TM "T3").siteWriteTimes = none ∧
    gateBFail c1TM "T3" (txnOf c1TM "T3").startTime (txnOf c1TM "T3").writeBuffer = none ∧
    ((endOp c1TM "T3" = .ok (setStatus c1TM "T3" (txnOf c1TM "T3") .aborted,
        [.endE "T3" c1TM.time, .aborts "T3" (some .cycleDetected)])) ↔
      ReachableCycle (buildConflictGraph c1TM "T3") "T3") :=
  ⟨by decide, by decide, by decide, by decide,
   c1_cycle_abort_iff_reachable c1TM "T3" (txnOf c1TM "T3")
     (by decide) (by decide) (by decide) (by decide)⟩

/-! #### Shared lemmas about association lists and the unblocker -/

theorem alookup_aset_self {α β : Type} [DecidableEq α] (l : List (α × β)) (k : α) (v : β) :
    alookup (aset l k v) k = some v := by
  induction l with
  | nil => simp [aset, alookup]
  | cons p rest ih =>
    obtain ⟨k', v'⟩ := p
    rw [aset]
    split_ifs with he
    · rw [alookup, if_pos rfl]
    · rw [alookup, if_neg (fun hh => he hh)]
      exact ih

theorem alookup_aset_ne {α β : Type} [DecidableEq α] (l : List (α × β)) (k k' : α) (v : β)
    (hne : k ≠ k') : alookup (aset l k' v) k = alookup l k := by
  induction l with
  | nil => simp [aset, alookup, hne]
  | cons p rest ih =>
    obtain ⟨k0, v0⟩ := p
    rw [aset]
    split_ifs with he
    · subst he
      rw [alookup, if_neg hne, alookup, if_neg hne]
    · rw [alookup, alookup]
      split_ifs with he0
      · rfl
      · exact ih

theorem alookup_none_of_not_mem_keys {α β : Type} [DecidableEq α]
    {l : List (α × β)} {k : α} (h : k ∉ l.map Prod.fst) : alookup l k = none := by
  induction l with
  | nil => rfl
  | cons p rest ih =>
    obtain ⟨k', v'⟩ := p
    rw [alookup]
    rw [List.map_cons, List.mem_cons] at h
    rw [if_neg (fun he => h (Or.inl he))]
    exact ih (fun hm => h (Or.inr hm))

theorem sadd_mem_of_mem {α : Type} [DecidableEq α] {l : List α} {a b : α}
    (h : b ∈ l) : b ∈ sadd l a := by
  unfold sadd
  split_ifs
  · exact h
  · exact List.mem_append_left _ h

theorem sadd_mem_self {α : Type} [DecidableEq α] (l : List α) (a : α) : a ∈ sadd l a := by
  unfold sadd
  split_ifs with h
  · exact h
  · exact List.mem_append_right _ (List.mem_singleton.mpr rfl)

theorem unblockGo_keys_subset (sites : List Site) :
    ∀ (l : List (String × (Nat × Int × List Nat))) (txns : List (String × Transaction))
      (readerIdx : List (Nat × List String)) (k : String),
      k ∈ (unblockGo sites l txns readerIdx).1.map Prod.fst → k ∈ l.map Prod.fst := by
  intro l
  induction l with
  | nil => intro txns readerIdx k h; rw [unblockGo] at h; cases h
  | cons e rest ih =>
    obtain ⟨tid₂, x₂, v₂, elig₂⟩ := e
    intro txns readerIdx k h
    rw [unblockGo] at h
    rw [List.map_cons, List.mem_cons]
    cases htx : alookup txns tid₂ with
    | none =>
      rw [htx] at h
      simp only [] at h
      exact Or.inr (ih txns readerIdx k h)
    | some t₂ =>
      rw [htx] at h
      simp only [] at h
      split_ifs at h with hst hup
      · exact Or.inr (ih txns readerIdx k h)
      · exact Or.inr (ih _ _ k h)
      · rw [List.map_cons, List.mem_cons] at h
        rcases h with he | hm
        · exact Or.inl he
        · exact Or.inr (ih txns readerIdx k hm)

theorem unblockGo_txns_preserved (sites : List Site) :
    ∀ (l : List (String × (Nat × Int × List Nat))) (txns : List (String × Transaction))
      (readerIdx : List (Nat × List String)) (tid : String),
      tid ∉ l.map Prod.fst →
      alookup (unblockGo sites l txns readerIdx).2.1 tid = alookup txns tid := by
  intro l
  induction l with
  | nil => intro txns readerIdx tid _; rw [unblockGo]
  | cons e rest ih =>
    obtain ⟨tid₂, x₂, v₂, elig₂⟩ := e
    intro txns readerIdx tid hk
    rw [List.map_cons, List.mem_cons] at hk
    have hne : tid ≠ tid₂ := fun he => hk (Or.inl he)
    have hk' : tid ∉ rest.map Prod.fst := fun hm => hk (Or.inr hm)
    rw [unblockGo]
    cases htx : alookup txns tid₂ with
    | none => exact ih txns readerIdx tid hk'
    | some t₂ =>
      simp only []
      split_ifs with hst hup
      · exact ih txns readerIdx tid hk'
      · rw [ih _ _ tid hk']
        exact alookup_aset_ne _ _ _ _ hne
      · exact ih txns readerIdx tid hk'

theorem unblockGo_readers_preserved (sites : List Site) :
    ∀ (l : List (String × (Nat × Int × List Nat))) (txns : List (String × Transaction))
      (readerIdx : List (Nat × List String)) (tid₀ : String) (x₀ : Nat),
      tid₀ ∈ (alookup readerIdx x₀).getD [] →
      tid₀ ∈ (alookup (unblockGo sites l txns readerIdx).2.2.1 x₀).getD [] := by
  intro l
  induction l with
  | nil => intro txns readerIdx tid₀ x₀ h; rw [unblockGo]; exact h
  | cons e rest ih =>
    obtain ⟨tid₂, x₂, v₂, elig₂⟩ := e
    intro txns readerIdx tid₀ x₀ h
    rw [unblockGo]
    cases htx : alookup txns tid₂ with
    | none => exact ih txns readerIdx tid₀ x₀ h
    | some t₂ =>
      simp only []
      split_ifs with hst hup
      · exact ih txns readerIdx tid₀ x₀ h
      · apply ih
        by_cases hx : x₀ = x₂
        · subst hx
          rw [alookup_aset_self, Option.getD_some]
          exact sadd_mem_of_mem h
        · rw [alookup_aset_ne _ _ _ _ hx]
          exact h
      · exact ih txns readerIdx tid₀ x₀ h

theorem unblockGo_middle (sites : List Site) (tid : String) (x : Nat) (v : Int)
    (elig : List Nat) :
    ∀ (pre post : List (String × (Nat × Int × List Nat)))
      (txns : List (String × Transaction)) (readerIdx : List (Nat × List String))
      (t : Transaction),
      tid ∉ pre.map Prod.fst → tid ∉ post.map Prod.fst →
      alookup txns tid = some t → t.status = .active →
      ((∃ s ∈ elig, siteUpIn sites s = true) →
        Event.readVal x v ∈
          (unblockGo sites (pre ++ (tid, (x, v, elig)) :: post) txns readerIdx).2.2.2 ∧
        alookup (unblockGo sites (pre ++ (tid, (x, v, elig)) :: post) txns readerIdx).1 tid
          = none ∧
        alookup (unblockGo sites (pre ++ (tid, (x, v, elig)) :: post) txns readerIdx).2.1 tid
          = some { t with readVars := sadd t.readVars x } ∧
        tid ∈ (alookup
          (unblockGo sites (pre ++ (tid, (x, v, elig)) :: post) txns readerIdx).2.2.1 x).getD []) ∧
      ((¬ ∃ s ∈ elig, siteUpIn sites s = true) →
        alookup (unblockGo sites (pre ++ (tid, (x, v, elig)) :: post) txns readerIdx).1 tid
          = some (x, v, elig) ∧
        alookup (unblockGo sites (pre ++ (tid, (x, v, elig)) :: post) txns readerIdx).2.1 tid
          = some t) := by
  intro pre
  induction pre with
  | nil =>
    intro post txns readerIdx t _ hpost ht hact
    rw [List.nil_append]
    constructor
    · intro hup
      have hany : elig.any (siteUpIn sites) = true := by
        rw [List.any_eq_true]
        obtain ⟨s, hs, hsu⟩ := hup
        exact ⟨s, hs, hsu⟩
      rw [unblockGo, ht]
      simp only []
      rw [if_neg (by rw [hact]; simp), if_pos hany]
      refine ⟨List.mem_cons_self .., ?_, ?_, ?_⟩
      · apply alookup_none_of_not_mem_keys
        intro hmem
        exact hpost (unblockGo_keys_subset sites post _ _ tid hmem)
      · rw [unblockGo_txns_preserved sites post _ _ tid hpost]
        exact alookup_aset_self ..
      · apply unblockGo_readers_preserved
        rw [alookup_aset_self, Option.getD_some]
        exact sadd_mem_self ..
    · intro hnup
      have hany : elig.any (siteUpIn sites) = false := by
        rw [← Bool.not_eq_true, List.any_eq_true]
        rintro ⟨s, hs, hsu⟩
        exact hnup ⟨s, hs, hsu⟩
      rw [unblockGo, ht]
      simp only []
      rw [if_neg (by rw [hact]; simp), if_neg (by rw [hany]; simp)]
      refine ⟨?_, ?_⟩
      · rw [alookup, if_pos rfl]
      · rw [unblockGo_txns_preserved sites post _ _ tid hpost]
        exact ht
  | cons e pre' ih =>
    obtain ⟨tid₂, x₂, v₂, elig₂⟩ := e
    intro post txns readerIdx t hpre hpost ht hact
    rw [List.map_cons, List.mem_cons] at hpre
    have hne : tid ≠ tid₂ := fun he => hpre (Or.inl he)
    have hpre' : tid ∉ pre'.map Prod.fst := fun hm => hpre (Or.inr hm)
    rw [List.cons_append, unblockGo]
    cases htx : alookup txns tid₂ with
    | none => exact ih post txns readerIdx t hpre' hpost ht hact
    | some t₂ =>
      simp only []
      split_ifs with hst hup
      · exact ih post txns readerIdx t hpre' hpost ht hact
      · have ht' : alookup (aset txns tid₂ { t₂ with readVars := sadd t₂.readVars x₂ }) tid
            = some t := by
          rw [alookup_aset_ne _ _ _ _ hne]
          exact ht
        obtain ⟨hres, hkept⟩ := ih post _ _ t hpre' hpost ht' hact
        constructor
        · intro h
          obtain ⟨he, hb, htr, hrd⟩ := hres h
          exact ⟨List.mem_cons_of_mem _ he, hb, htr, hrd⟩
        · exact hkept
      · obtain ⟨hres, hkept⟩ := ih post txns readerIdx t hpre' hpost ht hact
        constructor
        · intro h
          obtain ⟨he, hb, htr, hrd⟩ := hres h
          refine ⟨he, ?_, htr, hrd⟩
          rw [alookup, if_neg hne]
          exact hb
        · intro h
          obtain ⟨hb, htr⟩ := hkept h
          refine ⟨?_, htr⟩
          rw [alookup, if_neg hne]
          exact hb

/-- C9 (counterexample): on `c9Script`, `Tr`'s blocked read of `x2`
(frozen value 30, eligible sites 2..10) is resolved by `recover(1)` —
site 1 is not in the eligible set, and eligible site 2 was already up
(merely read-gated) — so no recover ever "brings an eligible site up",
yet the read is satisfied. -/
theorem c9_counterexample :
    alookup c9tm.blockedReads "Tr" = some (2, 30, [2, 3, 4, 5, 6, 7, 8, 9, 10]) ∧
    (alookup c9tm.txns "Tr").map Transaction.status = some .active ∧
    (1 : Nat) ∉ [2, 3, 4, 5, 6, 7, 8, 9, 10] ∧
    siteUpIn c9tm.sites 2 = true ∧
    (alookup (siteOf c9tm 2).canRead 2).getD true = false ∧
    Event.readVal 2 30 ∈ okEvs (run c9Script) ∧
    alookup (okSt (run c9Script)).blockedReads "Tr" = none := by
  decide

/-- C9 (amended): a blocked read `(tid, x, value, eligible)` with `tid`
still active is resolved by the unblocker (run on every `recover`)
exactly when some site of its eligible set is currently up — regardless
of which site recovered and of read gates: the emitted value is the
frozen snapshot value, `x` is added to `read_vars`, `tid` is registered
in `readers[x]`, and the entry is dropped; otherwise the entry and the
transaction are untouched. -/
theorem c9_unblock_iff_eligible_up (tm : TM) (tid : String) (x : Nat) (v : Int)
    (elig : List Nat) (t : Transaction)
    (pre post : List (String × (Nat × Int × List Nat)))
    (hsplit : tm.blockedReads = pre ++ (tid, (x, v, elig)) :: post)
    (hpre : tid ∉ pre.map Prod.fst) (hpost : tid ∉ post.map Prod.fst)
    (ht : alookup tm.txns tid = some t) (hact : t.status = .active) :
    ((∃ s ∈ elig, siteUpIn tm.sites s = true) →
      Event.readVal x v ∈ (tryUnblockReads tm).2 ∧
      alookup (tryUnblockReads tm).1.blockedReads tid = none ∧
      alookup (tryUnblockReads tm).1.txns tid =
        some { t with readVars := sadd t.readVars x } ∧
      tid ∈ (alookup (tryUnblockReads tm).1.readers x).getD []) ∧
    ((¬ ∃ s ∈ elig, siteUpIn tm.sites s = true) →
      alookup (tryUnblockReads tm).1.blockedReads tid = some (x, v, elig) ∧
      alookup (tryUnblockReads tm).1.txns tid = some t) := by
  unfold tryUnblockReads
  rw [hsplit]
  exact unblockGo_middle tm.sites tid x v elig pre post tm.txns tm.readers t
    hpre hpost ht hact

theorem c9_unblock_iff_eligible_up_witness :
    (c9tm.blockedReads = [] ++ ("Tr", (2, 30, [2, 3, 4, 5, 6, 7, 8, 9, 10])) :: [] ∧
      "Tr" ∉ ([] : List (String × (Nat × Int × List Nat))).map Prod.fst ∧
      "Tr" ∉ ([] : List (String × (Nat × Int × List Nat))).map Prod.fst ∧
      alookup c9tm.txns "Tr" = some (txnOf c9tm "Tr") ∧
      (txnOf c9tm "Tr").status = .active) ∧
    (((∃ s ∈ [2, 3, 4, 5, 6, 7, 8, 9, 10], siteUpIn c9tm.sites s = true) →
      Event.readVal 2 30 ∈ (tryUnblockReads c9tm).2 ∧
      alookup (tryUnblockReads c9tm).1.blockedReads "Tr" = none ∧
      alookup (tryUnblockReads c9tm).1.txns "Tr" =
        some { txnOf c9tm "Tr" with readVars := sadd (txnOf c9tm "Tr").readVars 2 } ∧
      "Tr" ∈ (alookup (tryUnblockReads c9tm).1.readers 2).getD []) ∧
    ((¬ ∃ s ∈ [2, 3, 4, 5, 6, 7, 8, 9, 10], siteUpIn c9tm.sites s = true) →
      alookup (tryUnblockReads c9tm).1.blockedReads "Tr" = some (2, 30, [2, 3, 4, 5, 6, 7, 8, 9, 10]) ∧
      alookup (tryUnblockReads c9tm).1.txns "Tr" = some (txnOf c9tm "Tr"))) :=
  ⟨⟨by decide, by decide, by decide, by decide, by decide⟩,
   c9_unblock_iff_eligible_up c9tm "Tr" 2 30 [2, 3, 4, 5, 6, 7, 8, 9, 10]
     (txnOf c9tm "Tr") [] [] (by decide) (by decide) (by decide) (by decide) (by decide)⟩

/-- C10: `begin(tid)` on an existing transaction that is committed or
aborted silently replaces the record with a fresh active transaction
starting now (erasing its reads, writes and commit time), while
`begin(tid)` on a currently active transaction is ignored. -/
theorem c10_begin_replaces_finished (tm : TM) (tid : String) (t : Transaction)
    (h : alookup tm.txns tid = some t) :
    (t.status ≠ .active →
      beginOp tm tid =
        ({ tm with txns := aset tm.txns tid (freshTxn tid tm.time) },
         [.beganE tid tm.time])) ∧
    (t.status = .active → beginOp tm tid = (tm, [])) := by
  constructor <;> intro hs <;> simp [beginOp, h, hs]

theorem c10_begin_replaces_finished_witness :
    (alookup c10tm.txns "T1" = some (txnOf c10tm "T1")) ∧
    (txnOf c10tm "T1").status ≠ .active ∧
    beginOp c10tm "T1" =
      ({ c10tm with txns := aset c10tm.txns "T1" (freshTxn "T1" c10tm.time) },
       [.beganE "T1" c10tm.time]) :=
  ⟨by decide, by decide,
   (c10_begin_replaces_finished c10tm "T1" (txnOf c10tm "T1") (by decide)).1 (by decide)⟩

end RepCRec
